import Mathlib

/-!
Verification of the workspace blob-usage ledger
(`libs/database/src/resource_usage.rs`).

The ledger is a set of operations against one Postgres table
`af_blob_metadata` with primary key `(workspace_id, file_id)`.  We embed
the table as a list of rows together with the key-uniqueness invariant
that the primary key provides, and each Rust function as the effect its
single SQL statement has on that list, following Postgres semantics:

* `INSERT ... ON CONFLICT (workspace_id, file_id) DO UPDATE` updates the
  conflicting row in place, otherwise appends a fresh row;
* `INSERT ... SELECT unnest(...) ON CONFLICT DO NOTHING` processes the
  batch rows in order, skipping any row whose key is already present,
  including keys inserted earlier in the same statement;
* `DELETE ... WHERE` removes every matching row;
* `SELECT ... WHERE` filters; `SUM(file_size)` over `int8` is computed in
  Postgres `numeric` (exact, unbounded), `NULL` when no row qualifies.

UUIDs are embedded as strings; Rust `usize` is embedded as `Nat` and its
`as i64` cast made explicit; `i64` values are embedded as `Int` (the
embedded operations never do `i64` arithmetic, they only store and sum,
and the sum is exact `numeric`, so no modular wrap occurs past the cast).
-/

namespace ResourceUsage

/-- Modelled from the spec, section 6: the persisted row shape of
`af_blob_metadata` (the Rust struct `AFBlobMetadataRow` lives in
`pg_row.rs`, which is not part of the supplied sources): columns
`workspace_id` (UUID), `file_id` (text), `file_type` (text),
`file_size` (8-byte integer). -/
structure AFBlobMetadataRow where
  workspace_id : String
  file_id : String
  file_type : String
  file_size : Int
  deriving DecidableEq, Repr

/-- Modelled from the spec, section 7: the error taxonomy surfaced by the
ledger (the Rust `AppError` lives in the `app_error` crate, not part of
the supplied sources): a distinct not-found condition for the point
lookup, and a generic store failure for everything else. -/
inductive AppError where
  | RecordNotFound : String → AppError
  | StoreFailure : String → AppError
  deriving DecidableEq, Repr

/-- The table state: the rows of `af_blob_metadata`. -/
abbrev Table := List AFBlobMetadataRow

/-- The `WHERE workspace_id = $1 AND file_id = $2` condition shared by
the point operations. -/
def keyMatch (workspace_id file_id : String) (r : AFBlobMetadataRow) : Bool :=
  r.workspace_id == workspace_id && r.file_id == file_id

/-- The primary-key projection of a row. -/
def rowKey (r : AFBlobMetadataRow) : String × String :=
  (r.workspace_id, r.file_id)

/-- The invariant the primary key `(workspace_id, file_id)` enforces:
no two rows share a key. -/
def KeysUnique (t : Table) : Prop :=
  (t.map rowKey).Nodup

/-- The Rust `usize as i64` cast: two-complement reinterpretation of the
low 64 bits. -/
def usize_as_i64 (n : Nat) : Int :=
  if n % 2 ^ 64 < 2 ^ 63 then ((n % 2 ^ 64 : Nat) : Int)
  else ((n % 2 ^ 64 : Nat) : Int) - 2 ^ 64

/-- `is_blob_metadata_exists`: `SELECT EXISTS (SELECT 1 FROM
af_blob_metadata WHERE workspace_id = $1 AND file_id = $2)`. -/
def is_blob_metadata_exists (t : Table) (workspace_id file_id : String) : Bool :=
  t.any (keyMatch workspace_id file_id)

/-- `insert_blob_metadata` (upsert): `INSERT INTO af_blob_metadata
(workspace_id, file_id, file_type, file_size) VALUES ($1,$2,$3,$4)
ON CONFLICT (workspace_id, file_id) DO UPDATE SET file_type = $3,
file_size = $4`, with `file_size` a `usize` bound as `file_size as i64`.
Returns the new table. -/
def insert_blob_metadata (t : Table) (file_id workspace_id file_type : String)
    (file_size : Nat) : Table :=
  let sz := usize_as_i64 file_size
  if is_blob_metadata_exists t workspace_id file_id then
    t.map fun r =>
      if keyMatch workspace_id file_id r then
        { r with file_type := file_type, file_size := sz }
      else r
  else
    t ++ [⟨workspace_id, file_id, file_type, sz⟩]

/-- The tail of `insert_blob_metadata`: `let n = res.rows_affected();
if n != 1 { tracing::error!(..) } Ok(())`.  First component records
whether the anomaly was logged, second is the value returned to the
caller. -/
def insert_blob_metadata_result (rows_affected : Nat) : Bool × Except AppError Unit :=
  (rows_affected != 1, Except.ok ())

/-- The Rust struct `BulkInsertMeta`. -/
structure BulkInsertMeta where
  object_id : String
  file_id : String
  file_type : String
  file_size : Int
  deriving DecidableEq, Repr

/-- The key derivation in `insert_blob_metadata_bulk`:
`format!("{}_{}", object_id, file_id)`. -/
def deriveKey (m : BulkInsertMeta) : String :=
  m.object_id ++ "_" ++ m.file_id

/-- The row a bulk entry contributes. -/
def bulkRow (workspace_id : String) (m : BulkInsertMeta) : AFBlobMetadataRow :=
  ⟨workspace_id, deriveKey m, m.file_type, m.file_size⟩

/-- `insert_blob_metadata_bulk`: derives each key as
`object_id ++ "_" ++ file_id`, then runs one `INSERT ... SELECT $1,
unnest($2::text[]), unnest($3::text[]), unnest($4::int8[]) ON CONFLICT
DO NOTHING`.  Postgres processes the unnested rows in order and skips
any row whose key is already present, counting only actual insertions;
returns the new table and `rows_affected`. -/
def insert_blob_metadata_bulk (workspace_id : String) (t : Table) :
    List BulkInsertMeta → Table × Nat
  | [] => (t, 0)
  | m :: rest =>
    if is_blob_metadata_exists t workspace_id (deriveKey m) then
      insert_blob_metadata_bulk workspace_id t rest
    else
      let p := insert_blob_metadata_bulk workspace_id (t ++ [bulkRow workspace_id m]) rest
      (p.1, p.2 + 1)

/-- `delete_blob_metadata`: `DELETE FROM af_blob_metadata WHERE
workspace_id = $1 AND file_id = $2` (the row count is only logged). -/
def delete_blob_metadata (t : Table) (workspace_id file_id : String) : Table :=
  t.filter fun r => !(keyMatch workspace_id file_id r)

/-- `get_blob_metadata`: `SELECT * FROM af_blob_metadata WHERE
workspace_id = $1 AND file_id = $2` through `fetch_one`, which fails
with the not-found condition when no row matches. -/
def get_blob_metadata (t : Table) (workspace_id metadata_key : String) :
    Except AppError AFBlobMetadataRow :=
  match t.find? (keyMatch workspace_id metadata_key) with
  | some r => Except.ok r
  | none => Except.error (AppError.RecordNotFound "row not found")

/-- `get_all_workspace_blob_metadata`: `SELECT * FROM af_blob_metadata
WHERE workspace_id = $1` through `fetch_all`. -/
def get_all_workspace_blob_metadata (t : Table) (workspace_id : String) : Table :=
  t.filter fun r => r.workspace_id == workspace_id

/-- `get_all_workspace_blob_ids`: `SELECT file_id FROM af_blob_metadata
WHERE workspace_id = $1` through `fetch_all`, mapped to the `file_id`
field of each record. -/
def get_all_workspace_blob_ids (t : Table) (workspace_id : String) : List String :=
  t.filterMap fun r =>
    if r.workspace_id == workspace_id then some r.file_id else none

/-- `get_workspace_usage_size`: `SELECT SUM(file_size) FROM
af_blob_metadata WHERE workspace_id = $1` (exact `numeric` sum, `NULL`
when no row matches, hence `None`), then `decimal.to_u64().unwrap_or(0)`
(`None` for negative or above `u64` range) with `None => 0`. -/
def get_workspace_usage_size (t : Table) (workspace_id : String) : Nat :=
  let rows := t.filter fun r => r.workspace_id == workspace_id
  match rows with
  | [] => 0
  | _ =>
    let s : Int := (rows.map AFBlobMetadataRow.file_size).sum
    if s < 0 ∨ (2 : Int) ^ 64 ≤ s then 0 else s.toNat

/-! ### Basic lemmas about keys and existence -/

theorem keyMatch_eq_true_iff (w f : String) (r : AFBlobMetadataRow) :
    keyMatch w f r = true ↔ r.workspace_id = w ∧ r.file_id = f := by
  simp [keyMatch]

theorem rowKey_eq_iff (r : AFBlobMetadataRow) (w f : String) :
    rowKey r = (w, f) ↔ r.workspace_id = w ∧ r.file_id = f := by
  simp [rowKey, Prod.ext_iff]

theorem keyMatch_iff_rowKey (w f : String) (r : AFBlobMetadataRow) :
    keyMatch w f r = true ↔ rowKey r = (w, f) := by
  rw [keyMatch_eq_true_iff, rowKey_eq_iff]

theorem exists_eq_true_iff (t : Table) (w f : String) :
    is_blob_metadata_exists t w f = true ↔ ∃ r ∈ t, keyMatch w f r = true := by
  simp [is_blob_metadata_exists, List.any_eq_true]

theorem exists_eq_false_iff (t : Table) (w f : String) :
    is_blob_metadata_exists t w f = false ↔ ∀ r ∈ t, ¬ keyMatch w f r = true := by
  rw [← Bool.not_eq_true, exists_eq_true_iff]
  push_neg
  tauto

theorem find?_eq_none_of_not_exists (t : Table) (w f : String)
    (h : is_blob_metadata_exists t w f = false) :
    t.find? (keyMatch w f) = none := by
  rw [List.find?_eq_none]
  exact (exists_eq_false_iff t w f).1 h

theorem countP_eq_zero_of_not_exists (t : Table) (w f : String)
    (h : is_blob_metadata_exists t w f = false) :
    t.countP (keyMatch w f) = 0 := by
  rw [List.countP_eq_zero]
  exact (exists_eq_false_iff t w f).1 h

theorem countP_le_one_of_unique (t : Table) (w f : String) (hu : KeysUnique t) :
    t.countP (keyMatch w f) ≤ 1 := by
  induction t with
  | nil => simp
  | cons r rest ih =>
    have hu' : KeysUnique rest := (List.nodup_cons.1 hu).2
    have hnotin : rowKey r ∉ rest.map rowKey := (List.nodup_cons.1 hu).1
    by_cases h : keyMatch w f r = true
    · have hcons : (r :: rest).countP (keyMatch w f) = rest.countP (keyMatch w f) + 1 := by
        simp [List.countP_cons, h]
      have hzero : rest.countP (keyMatch w f) = 0 := by
        rw [List.countP_eq_zero]
        intro a ha hka
        apply hnotin
        have : rowKey a = (w, f) := (keyMatch_iff_rowKey w f a).1 hka
        have hr : rowKey r = (w, f) := (keyMatch_iff_rowKey w f r).1 h
        rw [hr, ← this]
        exact List.mem_map_of_mem rowKey ha
      omega
    · have hcons : (r :: rest).countP (keyMatch w f) = rest.countP (keyMatch w f) := by
        simp [List.countP_cons, h]
      rw [hcons]
      exact ih hu'

theorem countP_pos_of_exists (t : Table) (w f : String)
    (h : is_blob_metadata_exists t w f = true) :
    1 ≤ t.countP (keyMatch w f) := by
  obtain ⟨r, hr, hk⟩ := (exists_eq_true_iff t w f).1 h
  calc 1 = [r].countP (keyMatch w f) := by simp [hk]
    _ ≤ t.countP (keyMatch w f) := by
        rw [List.countP_eq_length_filter, List.countP_eq_length_filter]
        exact List.Sublist.length_le ((List.singleton_sublist.2 hr).filter _)

/-! ### Lemmas about the upsert `insert_blob_metadata` -/

theorem usize_as_i64_of_lt (n : Nat) (h : n < 2 ^ 63) : usize_as_i64 n = (n : Int) := by
  have h64 : n < 2 ^ 64 := lt_trans h (by norm_num)
  unfold usize_as_i64
  rw [Nat.mod_eq_of_lt h64, if_pos h]

theorem keyMatch_update (w f ty : String) (sz : Int) (r : AFBlobMetadataRow) :
    keyMatch w f { r with file_type := ty, file_size := sz } = keyMatch w f r := rfl

theorem rowKey_update (ty : String) (sz : Int) (r : AFBlobMetadataRow) :
    rowKey { r with file_type := ty, file_size := sz } = rowKey r := rfl

theorem find?_map_update (t : Table) (w f ty : String) (sz : Int)
    (h : is_blob_metadata_exists t w f = true) :
    (t.map fun r =>
        if keyMatch w f r then { r with file_type := ty, file_size := sz } else r).find?
      (keyMatch w f) = some ⟨w, f, ty, sz⟩ := by
  induction t with
  | nil => simp [is_blob_metadata_exists] at h
  | cons r rest ih =>
    by_cases hk : keyMatch w f r = true
    · obtain ⟨hw, hf⟩ := (keyMatch_eq_true_iff w f r).1 hk
      cases r
      simp_all [List.find?_cons, keyMatch_update, keyMatch]
    · have h' : is_blob_metadata_exists rest w f = true := by
        rcases (exists_eq_true_iff _ w f).1 h with ⟨a, ha, hka⟩
        rcases List.mem_cons.1 ha with rfl | ha'
        · exact absurd hka hk
        · exact (exists_eq_true_iff rest w f).2 ⟨a, ha', hka⟩
      simp [List.find?_cons, hk, keyMatch_update, ih h']

theorem insert_blob_metadata_find? (t : Table) (f w ty : String) (n : Nat) :
    (insert_blob_metadata t f w ty n).find? (keyMatch w f)
      = some ⟨w, f, ty, usize_as_i64 n⟩ := by
  unfold insert_blob_metadata
  by_cases h : is_blob_metadata_exists t w f = true
  · simp only [h, if_true]
    exact find?_map_update t w f ty (usize_as_i64 n) h
  · have hfalse : is_blob_metadata_exists t w f = false := by
      simpa using h
    simp only [hfalse, Bool.false_eq_true, if_false]
    rw [List.find?_append, find?_eq_none_of_not_exists t w f hfalse]
    simp [keyMatch]

theorem insert_blob_metadata_keys_unique (t : Table) (f w ty : String) (n : Nat)
    (hu : KeysUnique t) : KeysUnique (insert_blob_metadata t f w ty n) := by
  unfold insert_blob_metadata
  by_cases h : is_blob_metadata_exists t w f = true
  · simp only [h, if_true]
    unfold KeysUnique
    have hmap : (t.map fun r =>
        if keyMatch w f r then { r with file_type := ty, file_size := usize_as_i64 n }
        else r).map rowKey = t.map rowKey := by
      rw [List.map_map]
      apply List.map_congr_left
      intro r _
      by_cases hk : keyMatch w f r = true <;> simp [hk, rowKey_update]
    rw [hmap]
    exact hu
  · have hfalse : is_blob_metadata_exists t w f = false := by
      simpa using h
    simp only [hfalse, Bool.false_eq_true, if_false]
    unfold KeysUnique
    rw [List.map_append]
    simp only [List.map_cons, List.map_nil]
    rw [List.nodup_append]
    refine ⟨hu, List.nodup_singleton _, ?_⟩
    intro k hk hk'
    simp only [List.mem_singleton] at hk'
    rcases List.mem_map.1 hk with ⟨r, hr, hrk⟩
    have : keyMatch w f r = true := by
      rw [keyMatch_iff_rowKey, hrk, hk']
      rfl
    exact ((exists_eq_false_iff t w f).1 hfalse) r hr this

theorem insert_blob_metadata_countP (t : Table) (f w ty : String) (n : Nat)
    (hu : KeysUnique t) :
    (insert_blob_metadata t f w ty n).countP (keyMatch w f) = 1 := by
  have hle : (insert_blob_metadata t f w ty n).countP (keyMatch w f) ≤ 1 :=
    countP_le_one_of_unique _ w f (insert_blob_metadata_keys_unique t f w ty n hu)
  have hex : is_blob_metadata_exists (insert_blob_metadata t f w ty n) w f = true := by
    rw [exists_eq_true_iff]
    have := insert_blob_metadata_find? t f w ty n
    exact ⟨_, List.mem_of_find?_eq_some this, List.find?_some this⟩
  have hge := countP_pos_of_exists _ w f hex
  omega

/-! ### Lemmas about `delete_blob_metadata` -/

theorem delete_of_not_exists (t : Table) (w f : String)
    (h : is_blob_metadata_exists t w f = false) :
    delete_blob_metadata t w f = t := by
  rw [delete_blob_metadata, List.filter_eq_self]
  intro r hr
  simp only [Bool.not_eq_true']
  exact Bool.not_eq_true _ ▸ ((exists_eq_false_iff t w f).1 h r hr)

theorem delete_eq_erase (t : Table) (w f : String) (r : AFBlobMetadataRow)
    (hu : KeysUnique t) (hr : r ∈ t) (hk : rowKey r = (w, f)) :
    delete_blob_metadata t w f = t.erase r := by
  induction t with
  | nil => cases hr
  | cons a rest ih =>
    have hu' : KeysUnique rest := (List.nodup_cons.1 hu).2
    have hnotin : rowKey a ∉ rest.map rowKey := (List.nodup_cons.1 hu).1
    rcases List.mem_cons.1 hr with heq | hmem
    · subst heq
      have hka : keyMatch w f r = true := (keyMatch_iff_rowKey w f r).2 hk
      have hrest : delete_blob_metadata rest w f = rest := by
        apply delete_of_not_exists
        rw [exists_eq_false_iff]
        intro x hx hkx
        apply hnotin
        rw [hk, ← (keyMatch_iff_rowKey w f x).1 hkx]
        exact List.mem_map_of_mem rowKey hx
      calc delete_blob_metadata (r :: rest) w f
          = delete_blob_metadata rest w f := by
            simp [delete_blob_metadata, List.filter_cons, hka]
        _ = rest := hrest
        _ = (r :: rest).erase r := (List.erase_cons_head r rest).symm
    · have hne : a ≠ r := by
        rintro rfl
        apply hnotin
        rw [hk, ← hk]
        exact hk ▸ (List.mem_map_of_mem rowKey hmem)
      have hka : keyMatch w f a = false := by
        rw [← Bool.not_eq_true]
        intro hka
        apply hnotin
        rw [(keyMatch_iff_rowKey w f a).1 hka, ← hk]
        exact List.mem_map_of_mem rowKey hmem
      calc delete_blob_metadata (a :: rest) w f
          = a :: delete_blob_metadata rest w f := by
            simp [delete_blob_metadata, List.filter_cons, hka]
        _ = a :: rest.erase r := by rw [ih hu' hmem]
        _ = (a :: rest).erase r := (List.erase_cons_tail (by simp [hne])).symm

theorem exists_delete_eq_false (t : Table) (w f : String) :
    is_blob_metadata_exists (delete_blob_metadata t w f) w f = false := by
  rw [exists_eq_false_iff]
  intro r hr
  have := (List.mem_filter.1 hr).2
  simp only [Bool.not_eq_true'] at this
  simp [this]

theorem get_delete_notFound (t : Table) (w f : String) :
    get_blob_metadata (delete_blob_metadata t w f) w f
      = Except.error (AppError.RecordNotFound "row not found") := by
  rw [get_blob_metadata,
    find?_eq_none_of_not_exists _ w f (exists_delete_eq_false t w f)]

/-! ### Lemmas about `insert_blob_metadata_bulk` -/

theorem exists_append (t t' : Table) (w f : String) :
    is_blob_metadata_exists (t ++ t') w f
      = (is_blob_metadata_exists t w f || is_blob_metadata_exists t' w f) := by
  simp [is_blob_metadata_exists, List.any_append]

theorem keyMatch_bulkRow (w : String) (m : BulkInsertMeta) :
    keyMatch w (deriveKey m) (bulkRow w m) = true := by
  simp [keyMatch, bulkRow]

theorem keys_unique_append_row (t : Table) (r : AFBlobMetadataRow)
    (hu : KeysUnique t)
    (hne : is_blob_metadata_exists t r.workspace_id r.file_id = false) :
    KeysUnique (t ++ [r]) := by
  unfold KeysUnique
  rw [List.map_append, List.map_singleton, List.nodup_append]
  refine ⟨hu, List.nodup_singleton _, ?_⟩
  intro k hk hk'
  simp only [List.mem_singleton] at hk'
  rcases List.mem_map.1 hk with ⟨a, ha, hak⟩
  have : keyMatch r.workspace_id r.file_id a = true := by
    rw [keyMatch_iff_rowKey, hak, hk']
    rfl
  exact ((exists_eq_false_iff t _ _).1 hne) a ha this

theorem bulk_table_append (w : String) (t : Table) (es : List BulkInsertMeta) :
    ∃ new, (insert_blob_metadata_bulk w t es).1 = t ++ new := by
  induction es generalizing t with
  | nil => exact ⟨[], by simp [insert_blob_metadata_bulk]⟩
  | cons m rest ih =>
    by_cases h : is_blob_metadata_exists t w (deriveKey m) = true
    · simpa [insert_blob_metadata_bulk, h] using ih t
    · have hfalse : is_blob_metadata_exists t w (deriveKey m) = false := by simpa using h
      obtain ⟨new, hnew⟩ := ih (t ++ [bulkRow w m])
      refine ⟨[bulkRow w m] ++ new, ?_⟩
      simp only [insert_blob_metadata_bulk, hfalse, Bool.false_eq_true, if_false]
      rw [hnew, List.append_assoc]

theorem exists_bulk_of_exists (w : String) (t : Table) (es : List BulkInsertMeta)
    (k : String) (h : is_blob_metadata_exists t w k = true) :
    is_blob_metadata_exists (insert_blob_metadata_bulk w t es).1 w k = true := by
  obtain ⟨new, hnew⟩ := bulk_table_append w t es
  rw [hnew, exists_append, h, Bool.true_or]

theorem exists_bulk_of_mem (w : String) (t : Table) (es : List BulkInsertMeta)
    (e : BulkInsertMeta) (he : e ∈ es) :
    is_blob_metadata_exists (insert_blob_metadata_bulk w t es).1 w (deriveKey e) = true := by
  induction es generalizing t with
  | nil => cases he
  | cons m rest ih =>
    by_cases h : is_blob_metadata_exists t w (deriveKey m) = true
    · rcases List.mem_cons.1 he with heq | hmem
      · subst heq
        simpa [insert_blob_metadata_bulk, h] using exists_bulk_of_exists w t rest _ h
      · simpa [insert_blob_metadata_bulk, h] using ih t hmem
    · have hfalse : is_blob_metadata_exists t w (deriveKey m) = false := by simpa using h
      have hstep : is_blob_metadata_exists (t ++ [bulkRow w m]) w (deriveKey m) = true := by
        rw [exists_append]
        simp [is_blob_metadata_exists, keyMatch_bulkRow]
      rcases List.mem_cons.1 he with heq | hmem
      · subst heq
        simpa [insert_blob_metadata_bulk, hfalse] using
          exists_bulk_of_exists w (t ++ [bulkRow w e]) rest _ hstep
      · simpa [insert_blob_metadata_bulk, hfalse] using ih (t ++ [bulkRow w m]) hmem

theorem bulk_keys_unique (w : String) (t : Table) (es : List BulkInsertMeta)
    (hu : KeysUnique t) : KeysUnique (insert_blob_metadata_bulk w t es).1 := by
  induction es generalizing t with
  | nil => exact hu
  | cons m rest ih =>
    by_cases h : is_blob_metadata_exists t w (deriveKey m) = true
    · simpa [insert_blob_metadata_bulk, h] using ih t hu
    · have hfalse : is_blob_metadata_exists t w (deriveKey m) = false := by simpa using h
      have hu' : KeysUnique (t ++ [bulkRow w m]) :=
        keys_unique_append_row t (bulkRow w m) hu hfalse
      simpa [insert_blob_metadata_bulk, hfalse] using ih (t ++ [bulkRow w m]) hu'

theorem bulk_filter_of_mono (w : String) (t t' : Table) (es : List BulkInsertMeta)
    (hmono : ∀ k, is_blob_metadata_exists t w k = true →
      is_blob_metadata_exists t' w k = true) :
    insert_blob_metadata_bulk w t' es
      = insert_blob_metadata_bulk w t'
          (es.filter fun e => !(is_blob_metadata_exists t w (deriveKey e))) := by
  induction es generalizing t' with
  | nil => rfl
  | cons m rest ih =>
    by_cases h : is_blob_metadata_exists t w (deriveKey m) = true
    · have h' : is_blob_metadata_exists t' w (deriveKey m) = true := hmono _ h
      simp only [List.filter_cons, h, Bool.not_true, Bool.false_eq_true, if_false]
      rw [insert_blob_metadata_bulk]
      simp only [h', if_true]
      exact ih t' hmono
    · have hfalse : is_blob_metadata_exists t w (deriveKey m) = false := by simpa using h
      simp only [List.filter_cons, hfalse, Bool.not_false, if_true]
      by_cases h' : is_blob_metadata_exists t' w (deriveKey m) = true
      · rw [insert_blob_metadata_bulk, insert_blob_metadata_bulk]
        simp only [h', if_true]
        exact ih t' hmono
      · have h'false : is_blob_metadata_exists t' w (deriveKey m) = false := by simpa using h'
        rw [insert_blob_metadata_bulk, insert_blob_metadata_bulk]
        simp only [h'false, Bool.false_eq_true, if_false]
        have hmono' : ∀ k, is_blob_metadata_exists t w k = true →
            is_blob_metadata_exists (t' ++ [bulkRow w m]) w k = true := by
          intro k hk
          rw [exists_append, hmono k hk, Bool.true_or]
        rw [ih (t' ++ [bulkRow w m]) hmono']

theorem find?_of_mem_unique (t : Table) (w f : String) (r : AFBlobMetadataRow)
    (hu : KeysUnique t) (hr : r ∈ t) (hk : rowKey r = (w, f)) :
    t.find? (keyMatch w f) = some r := by
  induction t with
  | nil => cases hr
  | cons a rest ih =>
    have hu' : KeysUnique rest := (List.nodup_cons.1 hu).2
    have hnotin : rowKey a ∉ rest.map rowKey := (List.nodup_cons.1 hu).1
    rcases List.mem_cons.1 hr with heq | hmem
    · subst heq
      rw [List.find?_cons, (keyMatch_iff_rowKey w f r).2 hk]
    · have hka : keyMatch w f a = false := by
        rw [← Bool.not_eq_true]
        intro hka
        apply hnotin
        rw [(keyMatch_iff_rowKey w f a).1 hka, ← hk]
        exact List.mem_map_of_mem rowKey hmem
      rw [List.find?_cons, hka]
      exact ih hu' hmem

theorem bulk_all_fresh (w : String) (t : Table) (es : List BulkInsertMeta)
    (hfresh : ∀ e ∈ es, is_blob_metadata_exists t w (deriveKey e) = false)
    (hnd : (es.map deriveKey).Nodup) :
    insert_blob_metadata_bulk w t es = (t ++ es.map (bulkRow w), es.length) := by
  induction es generalizing t with
  | nil => simp [insert_blob_metadata_bulk]
  | cons m rest ih =>
    have hm : is_blob_metadata_exists t w (deriveKey m) = false :=
      hfresh m (List.mem_cons_self m rest)
    have hnd' : (rest.map deriveKey).Nodup := (List.nodup_cons.1 hnd).2
    have hmnotin : deriveKey m ∉ rest.map deriveKey := (List.nodup_cons.1 hnd).1
    have hfresh' : ∀ e ∈ rest,
        is_blob_metadata_exists (t ++ [bulkRow w m]) w (deriveKey e) = false := by
      intro e he
      rw [exists_append, hfresh e (List.mem_cons_of_mem m he)]
      have h2 : is_blob_metadata_exists [bulkRow w m] w (deriveKey e) = false := by
        simp only [is_blob_metadata_exists, List.any_cons, List.any_nil, Bool.or_false]
        rw [← Bool.not_eq_true, keyMatch_eq_true_iff]
        rintro ⟨-, hfid⟩
        have hfid' : deriveKey m = deriveKey e := hfid
        exact hmnotin (by rw [hfid']; exact List.mem_map_of_mem deriveKey he)
      rw [h2]
      simp
    simp only [insert_blob_metadata_bulk, hm, Bool.false_eq_true, if_false]
    rw [ih (t ++ [bulkRow w m]) hfresh' hnd']
    simp [List.append_assoc]

theorem find?_map_bulkRow (w : String) (es : List BulkInsertMeta) (e : BulkInsertMeta)
    (hnd : (es.map deriveKey).Nodup) (he : e ∈ es) :
    (es.map (bulkRow w)).find? (keyMatch w (deriveKey e)) = some (bulkRow w e) := by
  induction es with
  | nil => cases he
  | cons m rest ih =>
    have hnd' : (rest.map deriveKey).Nodup := (List.nodup_cons.1 hnd).2
    have hmnotin : deriveKey m ∉ rest.map deriveKey := (List.nodup_cons.1 hnd).1
    rcases List.mem_cons.1 he with heq | hmem
    · subst heq
      rw [List.map_cons, List.find?_cons, keyMatch_bulkRow]
    · have hkm : keyMatch w (deriveKey e) (bulkRow w m) = false := by
        rw [← Bool.not_eq_true, keyMatch_eq_true_iff]
        rintro ⟨-, hfid⟩
        have hfid' : deriveKey m = deriveKey e := hfid
        exact hmnotin (by rw [hfid']; exact List.mem_map_of_mem deriveKey hmem)
      rw [List.map_cons, List.find?_cons, hkm]
      exact ih hnd' hmem

theorem bulk_count (w : String) (t : Table) (es : List BulkInsertMeta) :
    (insert_blob_metadata_bulk w t es).2
      = ((es.map deriveKey).toFinset.filter
          fun k => is_blob_metadata_exists t w k = false).card := by
  induction es generalizing t with
  | nil => simp [insert_blob_metadata_bulk]
  | cons m rest ih =>
    by_cases h : is_blob_metadata_exists t w (deriveKey m) = true
    · have hstep : ((m :: rest).map deriveKey).toFinset.filter
            (fun k => is_blob_metadata_exists t w k = false)
          = (rest.map deriveKey).toFinset.filter
              (fun k => is_blob_metadata_exists t w k = false) := by
        rw [List.map_cons, List.toFinset_cons, Finset.filter_insert, if_neg]
        simp [h]
      simp only [insert_blob_metadata_bulk, h, if_true]
      rw [ih t, hstep]
    · have hfalse : is_blob_metadata_exists t w (deriveKey m) = false := by simpa using h
      simp only [insert_blob_metadata_bulk, hfalse, Bool.false_eq_true, if_false]
      rw [ih (t ++ [bulkRow w m])]
      have hfilter : (rest.map deriveKey).toFinset.filter
            (fun k => is_blob_metadata_exists (t ++ [bulkRow w m]) w k = false)
          = ((rest.map deriveKey).toFinset.filter
              (fun k => is_blob_metadata_exists t w k = false)).erase (deriveKey m) := by
        ext k
        rw [Finset.mem_erase, Finset.mem_filter, Finset.mem_filter, exists_append]
        have hsingle : is_blob_metadata_exists [bulkRow w m] w k = (deriveKey m == k) := by
          simp [is_blob_metadata_exists, keyMatch, bulkRow]
        rw [hsingle, Bool.or_eq_false_iff, beq_eq_false_iff_ne]
        constructor
        · rintro ⟨hmem, hex, hne⟩
          exact ⟨fun hk => hne hk.symm, hmem, hex⟩
        · rintro ⟨hne, hmem, hex⟩
          exact ⟨hmem, hex, fun hk => hne hk.symm⟩
      rw [hfilter, List.map_cons, List.toFinset_cons, Finset.filter_insert, if_pos hfalse]
      by_cases hk0 : deriveKey m ∈ (rest.map deriveKey).toFinset.filter
          (fun k => is_blob_metadata_exists t w k = false)
      · rw [Finset.insert_eq_self.2 hk0, Finset.card_erase_of_mem hk0]
        have hpos : 1 ≤ ((rest.map deriveKey).toFinset.filter
            (fun k => is_blob_metadata_exists t w k = false)).card :=
          Finset.card_pos.2 ⟨deriveKey m, hk0⟩
        omega
      · rw [Finset.erase_eq_of_not_mem hk0, Finset.card_insert_of_not_mem hk0]

/-! ### Claim theorems -/

/-- C1: for every key and any prior state with unique keys, upserting
`(t1, s1)` and then `(t2, s2)` for the same key leaves exactly one row for
that key, and a subsequent get returns `file_type = t2` and
`file_size = s2`: the second call fully replaces the prior values. -/
theorem upsert_twice_fully_replaces (t : Table) (w f ty1 : String) (s1 : Nat)
    (ty2 : String) (s2 : Nat) (hu : KeysUnique t) (hs2 : s2 < 2 ^ 63) :
    (insert_blob_metadata (insert_blob_metadata t f w ty1 s1) f w ty2 s2).countP
        (keyMatch w f) = 1
    ∧ get_blob_metadata (insert_blob_metadata (insert_blob_metadata t f w ty1 s1) f w ty2 s2)
        w f = Except.ok ⟨w, f, ty2, (s2 : Int)⟩ := by
  have hu1 := insert_blob_metadata_keys_unique t f w ty1 s1 hu
  refine ⟨insert_blob_metadata_countP _ f w ty2 s2 hu1, ?_⟩
  have hf := insert_blob_metadata_find? (insert_blob_metadata t f w ty1 s1) f w ty2 s2
  rw [usize_as_i64_of_lt s2 hs2] at hf
  rw [get_blob_metadata, hf]

theorem upsert_twice_fully_replaces_witness :
    (insert_blob_metadata (insert_blob_metadata [] "f" "w" "png" 5) "f" "w" "jpg" 9).countP
        (keyMatch "w" "f") = 1
    ∧ get_blob_metadata
        (insert_blob_metadata (insert_blob_metadata [] "f" "w" "png" 5) "f" "w" "jpg" 9)
        "w" "f" = Except.ok ⟨"w", "f", "jpg", (9 : Int)⟩ :=
  upsert_twice_fully_replaces [] "w" "f" "png" 5 "jpg" 9 (by simp [KeysUnique]) (by norm_num)

/-- C2: a bulk entry whose derived key already exists in the table
contributes nothing: the whole call behaves exactly as if every entry
with an already-present key were filtered out of the batch (so the entry
adds no row and no unit of count), and after the call the row for that
key is still exactly the pre-existing row, `file_type` and `file_size`
unchanged. -/
theorem bulk_insert_existing_key_untouched (t : Table) (w : String)
    (es : List BulkInsertMeta) (e : BulkInsertMeta) (r : AFBlobMetadataRow)
    (hu : KeysUnique t) (he : e ∈ es) (hr : r ∈ t)
    (hk : rowKey r = (w, deriveKey e)) :
    insert_blob_metadata_bulk w t es
      = insert_blob_metadata_bulk w t
          (es.filter fun x => !(is_blob_metadata_exists t w (deriveKey x)))
    ∧ e ∉ es.filter (fun x => !(is_blob_metadata_exists t w (deriveKey x)))
    ∧ get_blob_metadata (insert_blob_metadata_bulk w t es).1 w (deriveKey e)
        = Except.ok r := by
  have hex : is_blob_metadata_exists t w (deriveKey e) = true :=
    (exists_eq_true_iff t w _).2 ⟨r, hr, (keyMatch_iff_rowKey _ _ r).2 hk⟩
  refine ⟨bulk_filter_of_mono w t t es (fun _ hk0 => hk0), ?_, ?_⟩
  · intro hmem
    have hpred := (List.mem_filter.1 hmem).2
    rw [hex] at hpred
    simp at hpred
  · obtain ⟨new, hnew⟩ := bulk_table_append w t es
    rw [hnew, get_blob_metadata, List.find?_append,
      find?_of_mem_unique t w _ r hu hr hk]
    rfl

theorem bulk_insert_existing_key_untouched_witness :
    insert_blob_metadata_bulk "w" [⟨"w", "obj_a", "old", 1⟩] [⟨"obj", "a", "new", 2⟩]
      = insert_blob_metadata_bulk "w" [⟨"w", "obj_a", "old", 1⟩]
          (([⟨"obj", "a", "new", 2⟩] : List BulkInsertMeta).filter
            fun x => !(is_blob_metadata_exists [⟨"w", "obj_a", "old", 1⟩] "w" (deriveKey x)))
    ∧ (⟨"obj", "a", "new", 2⟩ : BulkInsertMeta)
        ∉ ([⟨"obj", "a", "new", 2⟩] : List BulkInsertMeta).filter
            (fun x => !(is_blob_metadata_exists [⟨"w", "obj_a", "old", 1⟩] "w" (deriveKey x)))
    ∧ get_blob_metadata
        (insert_blob_metadata_bulk "w" [⟨"w", "obj_a", "old", 1⟩] [⟨"obj", "a", "new", 2⟩]).1
        "w" (deriveKey ⟨"obj", "a", "new", 2⟩)
        = Except.ok ⟨"w", "obj_a", "old", 1⟩ :=
  bulk_insert_existing_key_untouched [⟨"w", "obj_a", "old", 1⟩] "w"
    [⟨"obj", "a", "new", 2⟩] ⟨"obj", "a", "new", 2⟩ ⟨"w", "obj_a", "old", 1⟩
    (by simp [KeysUnique]) (by simp) (by simp) (by decide)

/-- C3: a bulk entry is stored under exactly the key
`object_id ++ "_" ++ file_id`: inserting one fresh entry appends a row
whose `file_id` column is that concatenation, and the row is retrievable
under that key with the entry values. -/
theorem bulk_stored_key_is_derived (t : Table) (w : String) (e : BulkInsertMeta)
    (hfresh : is_blob_metadata_exists t w (e.object_id ++ "_" ++ e.file_id) = false) :
    (insert_blob_metadata_bulk w t [e]).1
      = t ++ [⟨w, e.object_id ++ "_" ++ e.file_id, e.file_type, e.file_size⟩]
    ∧ get_blob_metadata (insert_blob_metadata_bulk w t [e]).1 w
        (e.object_id ++ "_" ++ e.file_id)
      = Except.ok ⟨w, e.object_id ++ "_" ++ e.file_id, e.file_type, e.file_size⟩ := by
  have hkey : deriveKey e = e.object_id ++ "_" ++ e.file_id := rfl
  have hfresh' : is_blob_metadata_exists t w (deriveKey e) = false := by
    rw [hkey]
    exact hfresh
  have h1 : (insert_blob_metadata_bulk w t [e]).1 = t ++ [bulkRow w e] := by
    simp [insert_blob_metadata_bulk, hfresh']
  have hrow : bulkRow w e
      = (⟨w, e.object_id ++ "_" ++ e.file_id, e.file_type, e.file_size⟩ : AFBlobMetadataRow) :=
    rfl
  refine ⟨by rw [h1, hrow], ?_⟩
  rw [h1, get_blob_metadata, List.find?_append,
    find?_eq_none_of_not_exists t w _ hfresh]
  have hmatch : keyMatch w (e.object_id ++ "_" ++ e.file_id) (bulkRow w e) = true := by
    rw [← hkey]
    exact keyMatch_bulkRow w e
  rw [hrow] at hmatch
  simp [List.find?_cons, hmatch, hrow]

theorem bulk_stored_key_is_derived_witness :
    (insert_blob_metadata_bulk "w" [] [⟨"obj1", "abc", "png", 7⟩]).1
      = [⟨"w", "obj1_abc", "png", 7⟩]
    ∧ get_blob_metadata (insert_blob_metadata_bulk "w" [] [⟨"obj1", "abc", "png", 7⟩]).1
        "w" "obj1_abc"
      = Except.ok ⟨"w", "obj1_abc", "png", 7⟩ := by
  have h := bulk_stored_key_is_derived [] "w" ⟨"obj1", "abc", "png", 7⟩ (by decide)
  exact h

/-- C4: total usage is the exact (unbounded) integer sum of `file_size`
over the rows of the workspace, converted once at the boundary to an
unsigned 64-bit value with negative or unrepresentable sums clamped to
0; a workspace whose rows have sizes 10, 20, 30 yields 60, and a
workspace with zero rows yields 0, not an error. -/
theorem total_usage_spec (t : Table) (w : String) :
    (get_workspace_usage_size t w
      = if ((get_all_workspace_blob_metadata t w).map AFBlobMetadataRow.file_size).sum < 0
            ∨ (2 : Int) ^ 64
              ≤ ((get_all_workspace_blob_metadata t w).map AFBlobMetadataRow.file_size).sum
        then 0
        else ((get_all_workspace_blob_metadata t w).map AFBlobMetadataRow.file_size).sum.toNat)
    ∧ (get_all_workspace_blob_metadata t w = [] → get_workspace_usage_size t w = 0)
    ∧ ∀ f1 f2 f3 ty : String,
        get_workspace_usage_size [⟨w, f1, ty, 10⟩, ⟨w, f2, ty, 20⟩, ⟨w, f3, ty, 30⟩] w
          = 60 := by
  refine ⟨?_, ?_, ?_⟩
  · rw [get_workspace_usage_size, get_all_workspace_blob_metadata]
    cases h : t.filter (fun r => r.workspace_id == w) with
    | nil => simp [h]
    | cons a l => simp [h]
  · intro h
    rw [get_all_workspace_blob_metadata] at h
    rw [get_workspace_usage_size, h]
  · intro f1 f2 f3 ty
    simp [get_workspace_usage_size, List.filter]

theorem total_usage_spec_witness :
    get_workspace_usage_size [] "w" = 0
    ∧ get_workspace_usage_size
        [⟨"w", "a", "png", 10⟩, ⟨"w", "b", "png", 20⟩, ⟨"w", "c", "png", 30⟩] "w" = 60 :=
  ⟨(total_usage_spec [] "w").2.1 (by simp [get_all_workspace_blob_metadata]),
   (total_usage_spec [] "w").2.2 "a" "b" "c" "png"⟩

/-- C5: whatever affected-row count the store reports for the upsert,
even one different from 1, the value returned to the caller is still
success; the anomaly is only logged. -/
theorem upsert_anomalous_row_count_still_ok (n : Nat) (h : n ≠ 1) :
    (insert_blob_metadata_result n).2 = Except.ok ()
    ∧ (insert_blob_metadata_result n).1 = true :=
  ⟨rfl, by simp [insert_blob_metadata_result, h]⟩

theorem upsert_anomalous_row_count_still_ok_witness :
    (insert_blob_metadata_result 0).2 = Except.ok ()
    ∧ (insert_blob_metadata_result 0).1 = true :=
  upsert_anomalous_row_count_still_ok 0 (by decide)

/-- C6: deleting an absent key is a no-op that leaves the table
unchanged; deleting a present key removes exactly that row, after which
the existence check returns false and the point lookup fails with the
not-found condition. -/
theorem delete_absent_noop_present_removes (t : Table) (w f : String)
    (hu : KeysUnique t) :
    (is_blob_metadata_exists t w f = false → delete_blob_metadata t w f = t)
    ∧ ∀ r ∈ t, rowKey r = (w, f) →
        delete_blob_metadata t w f = t.erase r
        ∧ is_blob_metadata_exists (delete_blob_metadata t w f) w f = false
        ∧ get_blob_metadata (delete_blob_metadata t w f) w f
            = Except.error (AppError.RecordNotFound "row not found") :=
  ⟨delete_of_not_exists t w f,
   fun r hr hk =>
     ⟨delete_eq_erase t w f r hu hr hk, exists_delete_eq_false t w f,
      get_delete_notFound t w f⟩⟩

theorem delete_absent_noop_present_removes_witness :
    delete_blob_metadata [⟨"w", "f", "png", 3⟩] "w" "g" = [⟨"w", "f", "png", 3⟩]
    ∧ delete_blob_metadata [⟨"w", "f", "png", 3⟩] "w" "f"
        = ([⟨"w", "f", "png", 3⟩] : Table).erase ⟨"w", "f", "png", 3⟩
    ∧ is_blob_metadata_exists (delete_blob_metadata [⟨"w", "f", "png", 3⟩] "w" "f")
        "w" "f" = false
    ∧ get_blob_metadata (delete_blob_metadata [⟨"w", "f", "png", 3⟩] "w" "f") "w" "f"
        = Except.error (AppError.RecordNotFound "row not found") := by
  have habsent := (delete_absent_noop_present_removes [⟨"w", "f", "png", 3⟩] "w" "g"
    (by simp [KeysUnique])).1 (by decide)
  have hpresent := (delete_absent_noop_present_removes [⟨"w", "f", "png", 3⟩] "w" "f"
    (by simp [KeysUnique])).2 ⟨"w", "f", "png", 3⟩ (by simp) (by decide)
  exact ⟨habsent, hpresent.1, hpresent.2.1, hpresent.2.2⟩

/-- C7: a bulk insert of N entries whose derived keys are pairwise
distinct and all absent from the table returns count N, and each derived
key becomes retrievable via get with the entry file type and size. -/
theorem bulk_insert_all_fresh_count_and_get (t : Table) (w : String)
    (es : List BulkInsertMeta)
    (hfresh : ∀ e ∈ es, is_blob_metadata_exists t w (deriveKey e) = false)
    (hnd : (es.map deriveKey).Nodup) :
    (insert_blob_metadata_bulk w t es).2 = es.length
    ∧ ∀ e ∈ es,
        get_blob_metadata (insert_blob_metadata_bulk w t es).1 w (deriveKey e)
          = Except.ok ⟨w, deriveKey e, e.file_type, e.file_size⟩ := by
  have hchar := bulk_all_fresh w t es hfresh hnd
  constructor
  · rw [hchar]
  · intro e he
    rw [hchar]
    show get_blob_metadata (t ++ es.map (bulkRow w)) w (deriveKey e) = _
    rw [get_blob_metadata, List.find?_append,
      find?_eq_none_of_not_exists t w _ (hfresh e he),
      find?_map_bulkRow w es e hnd he]
    rfl

theorem bulk_insert_all_fresh_count_and_get_witness :
    (insert_blob_metadata_bulk "w" []
        [⟨"o1", "a", "png", 1⟩, ⟨"o2", "b", "jpg", 2⟩]).2 = 2
    ∧ get_blob_metadata
        (insert_blob_metadata_bulk "w" []
          [⟨"o1", "a", "png", 1⟩, ⟨"o2", "b", "jpg", 2⟩]).1 "w"
        (deriveKey ⟨"o1", "a", "png", 1⟩)
        = Except.ok ⟨"w", deriveKey ⟨"o1", "a", "png", 1⟩, "png", 1⟩ := by
  have h := bulk_insert_all_fresh_count_and_get [] "w"
    [⟨"o1", "a", "png", 1⟩, ⟨"o2", "b", "jpg", 2⟩] (by decide) (by decide)
  exact ⟨h.1, h.2 ⟨"o1", "a", "png", 1⟩ (by simp)⟩

/-- C8 counterexample: the bulk path stores a caller-supplied negative
`file_size` verbatim, so not every caller-supplied input leads to a
non-negative stored size: inserting one entry with size -1 into an empty
table stores a row whose `file_size` is -1. -/
theorem bulk_insert_stores_negative_size :
    (insert_blob_metadata_bulk "w" [] [⟨"obj", "f", "png", -1⟩]).1
      = [⟨"w", "obj_f", "png", -1⟩]
    ∧ ¬ (0 : Int) ≤ -1 := by
  constructor
  · decide
  · decide

/-- C8 (amended): non-negativity of every stored `file_size` is
preserved by upsert, bulk insert and delete provided the callers respect
it: the upsert `usize` value stays below 2 to the 63 (so its `as i64`
cast is non-negative) and every bulk entry carries a non-negative size;
the code itself does not reject a negative bulk `file_size`. -/
theorem size_nonneg_preserved (t : Table) (w f ty : String) (n : Nat)
    (es : List BulkInsertMeta)
    (ht : ∀ r ∈ t, 0 ≤ r.file_size) (hn : n < 2 ^ 63)
    (hes : ∀ e ∈ es, 0 ≤ e.file_size) :
    (∀ r ∈ insert_blob_metadata t f w ty n, 0 ≤ r.file_size)
    ∧ (∀ r ∈ (insert_blob_metadata_bulk w t es).1, 0 ≤ r.file_size)
    ∧ (∀ r ∈ delete_blob_metadata t w f, 0 ≤ r.file_size) := by
  have hsz : (0 : Int) ≤ usize_as_i64 n := by
    rw [usize_as_i64_of_lt n hn]
    exact Int.natCast_nonneg n
  refine ⟨?_, ?_, ?_⟩
  · intro r hr
    unfold insert_blob_metadata at hr
    by_cases h : is_blob_metadata_exists t w f = true
    · simp only [h, if_true] at hr
      rcases List.mem_map.1 hr with ⟨a, ha, rfl⟩
      by_cases hk : keyMatch w f a = true
      · simpa [hk] using hsz
      · simpa [hk] using ht a ha
    · have hfalse : is_blob_metadata_exists t w f = false := by simpa using h
      simp only [hfalse, Bool.false_eq_true, if_false] at hr
      rcases List.mem_append.1 hr with hmem | hmem
      · exact ht r hmem
      · rcases List.mem_singleton.1 hmem with rfl
        exact hsz
  · clear hsz hn
    induction es generalizing t with
    | nil => exact ht
    | cons m rest ih =>
      have hm : (0 : Int) ≤ m.file_size := hes m (List.mem_cons_self m rest)
      have hes' : ∀ e ∈ rest, (0 : Int) ≤ e.file_size :=
        fun e he => hes e (List.mem_cons_of_mem m he)
      by_cases h : is_blob_metadata_exists t w (deriveKey m) = true
      · simpa [insert_blob_metadata_bulk, h] using ih t ht hes'
      · have hfalse : is_blob_metadata_exists t w (deriveKey m) = false := by simpa using h
        have ht' : ∀ r ∈ t ++ [bulkRow w m], (0 : Int) ≤ r.file_size := by
          intro r hr
          rcases List.mem_append.1 hr with hmem | hmem
          · exact ht r hmem
          · rcases List.mem_singleton.1 hmem with rfl
            exact hm
        simpa [insert_blob_metadata_bulk, hfalse] using
          ih (t ++ [bulkRow w m]) ht' hes'
  · intro r hr
    exact ht r (List.mem_of_mem_filter hr)

theorem size_nonneg_preserved_witness :
    (∀ r ∈ insert_blob_metadata [] "f" "w" "png" 5, (0 : Int) ≤ r.file_size)
    ∧ (∀ r ∈ (insert_blob_metadata_bulk "w" [] [⟨"o", "a", "png", 4⟩]).1,
        (0 : Int) ≤ r.file_size)
    ∧ (∀ r ∈ delete_blob_metadata [] "w" "f", (0 : Int) ≤ r.file_size) :=
  size_nonneg_preserved [] "w" "f" "png" 5 [⟨"o", "a", "png", 4⟩]
    (by simp) (by norm_num) (by decide)

/-- C9: the identifier listing is exactly the `file_id` projection of
the row listing for the same workspace: same key set, identifiers only. -/
theorem blob_ids_are_projection_of_metadata (t : Table) (w : String) :
    get_all_workspace_blob_ids t w
      = (get_all_workspace_blob_metadata t w).map AFBlobMetadataRow.file_id := by
  induction t with
  | nil => rfl
  | cons r rest ih =>
    rw [get_all_workspace_blob_ids, List.filterMap_cons,
      get_all_workspace_blob_metadata, List.filter_cons]
    by_cases h : (r.workspace_id == w) = true
    · simp only [h, if_true]
      rw [List.map_cons]
      exact congrArg _ ih
    · have hfalse : (r.workspace_id == w) = false := by simpa using h
      simp only [hfalse, Bool.false_eq_true, if_false]
      exact ih

/-- C10: even for a batch containing two entries with the same derived
key that is absent from the table, exactly one row ends up stored for
that key, the key-uniqueness invariant is preserved, and the returned
count is the number of distinct fresh derived keys (each key counted at
most once, so never more than the number of distinct keys). -/
theorem bulk_self_conflicting_batch (t : Table) (w : String)
    (es : List BulkInsertMeta) (i j : Fin es.length) (hij : i ≠ j)
    (hkey : deriveKey (es.get i) = deriveKey (es.get j))
    (hu : KeysUnique t)
    (hfresh : is_blob_metadata_exists t w (deriveKey (es.get i)) = false) :
    (insert_blob_metadata_bulk w t es).1.countP
        (keyMatch w (deriveKey (es.get i))) = 1
    ∧ KeysUnique (insert_blob_metadata_bulk w t es).1
    ∧ (insert_blob_metadata_bulk w t es).2
        = ((es.map deriveKey).toFinset.filter
            fun k => is_blob_metadata_exists t w k = false).card
    ∧ (insert_blob_metadata_bulk w t es).2 ≤ (es.map deriveKey).toFinset.card := by
  have huresult := bulk_keys_unique w t es hu
  have hcount := bulk_count w t es
  refine ⟨?_, huresult, hcount, ?_⟩
  · have hex : is_blob_metadata_exists (insert_blob_metadata_bulk w t es).1 w
        (deriveKey (es.get i)) = true :=
      exists_bulk_of_mem w t es (es.get i) (List.get_mem es i.1 i.2)
    have h1 := countP_pos_of_exists _ _ _ hex
    have h2 := countP_le_one_of_unique _ w (deriveKey (es.get i)) huresult
    omega
  · rw [hcount]
    exact Finset.card_filter_le _ _

theorem bulk_self_conflicting_batch_witness :
    (insert_blob_metadata_bulk "w" []
        [⟨"o", "a", "t1", 1⟩, ⟨"o", "a", "t2", 2⟩]).1.countP
        (keyMatch "w" (deriveKey ⟨"o", "a", "t1", 1⟩)) = 1
    ∧ KeysUnique (insert_blob_metadata_bulk "w" []
        [⟨"o", "a", "t1", 1⟩, ⟨"o", "a", "t2", 2⟩]).1
    ∧ (insert_blob_metadata_bulk "w" []
        [⟨"o", "a", "t1", 1⟩, ⟨"o", "a", "t2", 2⟩]).2
        = ((([⟨"o", "a", "t1", 1⟩, ⟨"o", "a", "t2", 2⟩] : List BulkInsertMeta).map
              deriveKey).toFinset.filter
            fun k => is_blob_metadata_exists [] "w" k = false).card
    ∧ (insert_blob_metadata_bulk "w" []
        [⟨"o", "a", "t1", 1⟩, ⟨"o", "a", "t2", 2⟩]).2
        ≤ (([⟨"o", "a", "t1", 1⟩, ⟨"o", "a", "t2", 2⟩] : List BulkInsertMeta).map
            deriveKey).toFinset.card :=
  bulk_self_conflicting_batch [] "w" [⟨"o", "a", "t1", 1⟩, ⟨"o", "a", "t2", 2⟩]
    ⟨0, by decide⟩ ⟨1, by decide⟩ (by decide) (by decide) (by simp [KeysUnique])
    (by decide)

end ResourceUsage
